import Mathlib

/-!
# Verification of the BentoML yatai deployment CLI data layer

Shallow embedding of `src/bentoml_cli/deployments.py` and
`src/bentoml/_internal/yatai_rest_api_client/schemas.py`.

Python dictionaries are modelled as ordered association lists
(`List (String × α)`) with first-occurrence order and in-place value
update, matching CPython dict semantics.  Python strings are Lean
strings; `str.startswith`, `str.removeprefix`, `str.endswith` and
`str.split` are modelled on the underlying character lists.
-/

/-- Model of Python `str.startswith`. -/
def pyStartsWith (s pre : String) : Bool :=
  pre.data.isPrefixOf s.data

/-- Model of Python `str.endswith`. -/
def pyEndsWith (s suf : String) : Bool :=
  suf.data.isSuffixOf s.data

/-- Model of Python `str.removeprefix`: drop `pre` from the front of `s`
if it is present, otherwise return `s` unchanged. -/
def pyRemoveLeading (s pre : String) : String :=
  if pre.data.isPrefixOf s.data then String.mk (s.data.drop pre.data.length) else s

/-- Model of Python `str.removesuffix`: drop `suf` from the end of `s`
if it is present, otherwise return `s` unchanged. -/
def pyRemoveTrailing (s suf : String) : String :=
  if suf.data.isSuffixOf s.data then String.mk (s.data.take (s.data.length - suf.data.length))
  else s

/-- Helper for `pySplit`: split a character list at every occurrence of
the separator character (the empty list yields one empty part). -/
def splitChars (sep : Char) : List Char → List (List Char)
  | [] => [[]]
  | c :: rest =>
      match splitChars sep rest with
      | [] => [[c]]
      | w :: ws => if c = sep then [] :: w :: ws else (c :: w) :: ws

/-- Model of Python `str.split(sep)`: every occurrence of the separator
splits (no maxsplit), and the empty string yields `[""]`.  The source
only ever splits on the one-character separators `"."` and `"="`. -/
def pySplit (s sep : String) : List String :=
  (splitChars (sep.data.headD ' ') s.data).map (fun cs => String.mk cs)

deriving instance DecidableEq for Except

/-- A scalar value carried by a command-line flag.  The CLI layer hands
strings (and occasionally numbers or booleans) through untouched. -/
inductive PyVal where
  | str (s : String)
  | int (n : Int)
  | bool (b : Bool)
deriving DecidableEq

/-- CPython dict assignment `d[k] = v`: if the key is present its value
is updated in place (the key keeps its original position), otherwise the
pair is appended. -/
def dictInsert {α : Type} (m : List (String × α)) (k : String) (v : α) :
    List (String × α) :=
  if (m.map Prod.fst).contains k then
    m.map (fun kv => if kv.1 = k then (kv.1, v) else kv)
  else m ++ [(k, v)]

/-- CPython dict lookup `d.get(k)`: value of the first (unique) entry
with key `k`. -/
def dictLookup {α : Type} (m : List (String × α)) (k : String) : Option α :=
  (m.find? (fun kv => kv.1 == k)).map Prod.snd

/-- `parse_config` from `bentoml_cli/deployments.py`:

    def parse_config(stem, config):
        return {
            k.removeprefix(stem if stem.endswith(".") else stem + "."): arg
            for k, arg in config.items()
            if k.startswith(stem)
        }

The dict comprehension is modelled as a left fold building a Python dict
with `dictInsert`. -/
def parse_config {α : Type} (stem : String) (config : List (String × α)) :
    List (String × α) :=
  let pre := if pyEndsWith stem "." then stem else stem ++ "."
  config.foldl
    (fun acc kv =>
      if pyStartsWith kv.1 stem then dictInsert acc (pyRemoveLeading kv.1 pre) kv.2
      else acc)
    []

/-- The result claimed by the specification for the prefix filter
(claim C2, following the spec's words): exactly the entries whose key
starts with `stem`, with the root segment and its trailing dot stripped,
values unchanged and order preserved. -/
def specFilterMap {α : Type} (stem : String) (config : List (String × α)) :
    List (String × α) :=
  let pre := if pyEndsWith stem "." then stem else stem ++ "."
  (config.filter (fun kv => pyStartsWith kv.1 stem)).map
    (fun kv => (pyRemoveLeading kv.1 pre, kv.2))

/-- Python runtime errors raised by the embedded code paths. -/
inductive PyErr where
  | typeErr (msg : String)
  | keyErr (k : String)
  | attrErr (msg : String)
deriving DecidableEq

/-- `LabelItemSchema` from `schemas.py`: `key` and `value` strings. -/
structure LabelItemSchema where
  key : String
  value : String
deriving DecidableEq

/-- `LabelItemSchema(*args)`: the attrs-generated constructor takes
exactly the two positional arguments `key` and `value`; any other arity
raises `TypeError`. -/
def mkLabelItemSchema (args : List String) : Except PyErr LabelItemSchema :=
  match args with
  | [k, v] => Except.ok ⟨k, v⟩
  | _ => Except.error (PyErr.typeErr "LabelItemSchema() takes 2 positional arguments")

/-- `DeploymentTargetResourceItem` from `schemas.py` (`cpu`, `memory`,
`gpu`).  The fields are annotated `Optional[str]` but carry whatever the
caller passed, unconverted; we store the raw flag value. -/
structure DeploymentTargetResourceItem where
  cpu : PyVal
  memory : PyVal
  gpu : PyVal
deriving DecidableEq

/-- `DeploymentTargetResourceItem(**kw)`: all three fields are declared
without defaults under `@attr.define`, so each is a required keyword;
a missing or unexpected keyword raises `TypeError`. -/
def mkDeploymentTargetResourceItem (kw : List (String × PyVal)) :
    Except PyErr DeploymentTargetResourceItem :=
  match dictLookup kw "cpu", dictLookup kw "memory", dictLookup kw "gpu" with
  | Option.some c, Option.some m, Option.some g =>
      if kw.all (fun kv => kv.1 == "cpu" || kv.1 == "memory" || kv.1 == "gpu") then
        Except.ok ⟨c, m, g⟩
      else Except.error
        (PyErr.typeErr "DeploymentTargetResourceItem() got an unexpected keyword argument")
  | _, _, _ =>
      Except.error (PyErr.typeErr "DeploymentTargetResourceItem() missing required argument")

/-- `DeploymentTargetResources` from `schemas.py` (`requests`, `limits`).
In `create` both are always passed positionally. -/
structure DeploymentTargetResources where
  requests : DeploymentTargetResourceItem
  limits : DeploymentTargetResourceItem
deriving DecidableEq

/-- `DeploymentTargetHPAConf` from `schemas.py`: `cpu`, `gpu`, `memory`,
`qps`, `min_replicas`, `max_replicas`, all declared without defaults. -/
structure DeploymentTargetHPAConf where
  cpu : PyVal
  gpu : PyVal
  memory : PyVal
  qps : PyVal
  min_replicas : PyVal
  max_replicas : PyVal
deriving DecidableEq

/-- `DeploymentTargetHPAConf(**kw)`: every field is a required keyword
argument; a missing or unexpected keyword raises `TypeError`. -/
def mkDeploymentTargetHPAConf (kw : List (String × PyVal)) :
    Except PyErr DeploymentTargetHPAConf :=
  match dictLookup kw "cpu", dictLookup kw "gpu", dictLookup kw "memory",
      dictLookup kw "qps", dictLookup kw "min_replicas", dictLookup kw "max_replicas" with
  | Option.some c, Option.some g, Option.some m, Option.some q, Option.some mn,
      Option.some mx =>
      if kw.all (fun kv => kv.1 == "cpu" || kv.1 == "gpu" || kv.1 == "memory" ||
          kv.1 == "qps" || kv.1 == "min_replicas" || kv.1 == "max_replicas") then
        Except.ok ⟨c, g, m, q, mn, mx⟩
      else Except.error
        (PyErr.typeErr "DeploymentTargetHPAConf() got an unexpected keyword argument")
  | _, _, _, _, _, _ =>
      Except.error (PyErr.typeErr "DeploymentTargetHPAConf() missing required argument")

/-- `DeploymentTargetRunnerConfig` from `schemas.py`. -/
structure DeploymentTargetRunnerConfig where
  envs : List LabelItemSchema
  hpa_conf : DeploymentTargetHPAConf
  resources : DeploymentTargetResources
deriving DecidableEq

/-- `DeploymentTargetConfig` from `schemas.py`.  `runners` is a mapping
from runner name to `DeploymentTargetRunnerConfig`; `enable_ingress`
carries the raw flag value (the code applies no conversion). -/
structure DeploymentTargetConfig where
  kubeResourceUid : String
  kubeResourceVersion : String
  resources : DeploymentTargetResources
  hpa_conf : DeploymentTargetHPAConf
  envs : Option (List LabelItemSchema)
  runners : List (String × DeploymentTargetRunnerConfig)
  enable_ingress : PyVal
deriving DecidableEq

/-- A Python list comprehension whose element expression may raise:
evaluates left to right, propagating the first error. -/
def pyListMap {α β : Type} (f : α → Except PyErr β) : List α → Except PyErr (List β)
  | [] => Except.ok []
  | a :: l => do
      let b ← f a
      let bs ← pyListMap f l
      Except.ok (b :: bs)

/-- The distinct runner names in `create`:

    runners = {runner.split(".")[0]
               for runner in parse_config("config.runners", kwargs).keys()}

Python set iteration order is unspecified; we fix first-occurrence order
(the claims do not depend on it). -/
def runnerNames (kwargs : List (String × PyVal)) : List String :=
  (((parse_config "config.runners" kwargs).map Prod.fst).map
    (fun runner => (pySplit runner ".").headD "")).eraseDups

/-- One iteration of the runner loop in `create`.  Argument evaluation
follows the source order: the `envs` list comprehension (which iterates
the *keys* of the `runner_envs` dict), then `DeploymentTargetHPAConf`,
then the two `DeploymentTargetResourceItem`s. -/
def buildRunnerConfig (kwargs : List (String × PyVal)) (runner : String) :
    Except PyErr DeploymentTargetRunnerConfig := do
  let config_name := "config.runners." ++ runner
  let runner_envs := parse_config (config_name ++ ".env") kwargs
  let runner_hpa_conf := parse_config (config_name ++ ".hpa_conf") kwargs
  let runner_requests := parse_config (config_name ++ ".resources.requests") kwargs
  let runner_limits := parse_config (config_name ++ ".resources.limits") kwargs
  let envs ← pyListMap (fun env => mkLabelItemSchema (pySplit env "="))
    (runner_envs.map Prod.fst)
  let hpa ← mkDeploymentTargetHPAConf runner_hpa_conf
  let requests ← mkDeploymentTargetResourceItem runner_requests
  let limits ← mkDeploymentTargetResourceItem runner_limits
  Except.ok ⟨envs, hpa, ⟨requests, limits⟩⟩

/-- The configuration-assembly part of `create` in
`bentoml_cli/deployments.py` (lines 320–363): builds the
`DeploymentTargetConfig` of the fresh `CreateDeploymentTargetSchema`
from the flat flag map `kwargs`.  The `do`-sequencing mirrors Python's
left-to-right argument evaluation: the runner loop, then
`DeploymentTargetResourceItem(**resource_requests)`,
`DeploymentTargetResourceItem(**resource_limits)`,
`DeploymentTargetHPAConf(**hpa_conf)`, the env-label comprehension
(iterating the keys of the `envs` dict), and finally the unconditional
lookup `config["enable_ingress"]`, which raises `KeyError` when the
key is absent. -/
def createTargetConfig (kwargs : List (String × PyVal)) :
    Except PyErr DeploymentTargetConfig := do
  let config := parse_config "config" kwargs
  let resource_requests := parse_config "config.resources.requests" kwargs
  let resource_limits := parse_config "config.resources.limits" kwargs
  let hpa_conf := parse_config "config.hpa_conf" kwargs
  let envs := parse_config "config.env" kwargs
  let runner_configs ← pyListMap
    (fun runner => do
      let rc ← buildRunnerConfig kwargs runner
      Except.ok (runner, rc))
    (runnerNames kwargs)
  let requests ← mkDeploymentTargetResourceItem resource_requests
  let limits ← mkDeploymentTargetResourceItem resource_limits
  let hpa ← mkDeploymentTargetHPAConf hpa_conf
  let envLabels ← pyListMap (fun env => mkLabelItemSchema (pySplit env "="))
    (envs.map Prod.fst)
  let envsOpt := if envLabels.isEmpty then Option.none else Option.some envLabels
  let enable_ingress ← match dictLookup config "enable_ingress" with
    | Option.some v => Except.ok v
    | Option.none => Except.error (PyErr.keyErr "enable_ingress")
  Except.ok ⟨"", "", ⟨requests, limits⟩, hpa, envsOpt, runner_configs, enable_ingress⟩

/-- A Python object tree as walked by `set_config`: an attrs instance
(`record`, a slotted object with a fixed field list), a scalar, or
`None`.  Scalars and `None` have none of the attributes in question. -/
inductive PyObj where
  | record (fields : List (String × PyObj))
  | v (val : PyVal)
  | noneObj

/-- Python `hasattr(obj, field)` for the objects `set_config` walks. -/
def hasattrPy (obj : PyObj) (field : String) : Bool :=
  match obj with
  | PyObj.record fs => (fs.map Prod.fst).contains field
  | _ => false

/-- Python `getattr(obj, field)`; only evaluated under a successful
`hasattr` check in `set_config`. -/
def getattrPy (obj : PyObj) (field : String) : PyObj :=
  match obj with
  | PyObj.record fs => (dictLookup fs field).getD PyObj.noneObj
  | _ => PyObj.noneObj

/-- Python `setattr(obj, field, value)` on an attrs instance:
`@attr.define` classes are slotted, so assigning to a name that is not
a declared field raises `AttributeError`; an existing field's value is
replaced outright. -/
def setattrPy (obj : PyObj) (field : String) (value : PyObj) :
    Except PyErr PyObj :=
  match obj with
  | PyObj.record fs =>
      if (fs.map Prod.fst).contains field then
        Except.ok (PyObj.record (fs.map (fun kv => if kv.1 = field then (kv.1, value) else kv)))
      else Except.error (PyErr.attrErr field)
  | _ => Except.error (PyErr.attrErr field)

/-- The walk of `set_config`: iterate `key_path[:-1]` by `hasattr` and
`getattr`, raising `AttributeError("Can not set {key} in object")` at
the first missing intermediate field, then `setattr` on the final
segment.  The in-place mutation of the inner object is modelled by
rebuilding the path functionally.  (The source message also interpolates
`type(obj)`, which we omit.) -/
def walkSet (obj : PyObj) (key : String) (path : List String) (value : PyObj) :
    Except PyErr PyObj :=
  match path with
  | [] => Except.error (PyErr.attrErr ("Can not set " ++ key ++ " in object"))
  | [last] => setattrPy obj last value
  | field :: rest => do
      if hasattrPy obj field then
        let sub ← walkSet (getattrPy obj field) key rest value
        setattrPy obj field sub
      else
        Except.error (PyErr.attrErr ("Can not set " ++ key ++ " in object"))

/-- `set_config(obj, key, value)` from `bentoml_cli/deployments.py`
(lines 38–47), as the functional update it performs on `obj`. -/
def set_config (obj : PyObj) (key : String) (value : PyObj) :
    Except PyErr PyObj :=
  walkSet obj key (pySplit key ".") value

/-- Attribute lookup along a path of field names: `some` of the object
reached by the chain of `getattr`s, `none` as soon as a segment is not
an attribute of the current object. -/
def getPath (obj : PyObj) : List String → Option PyObj
  | [] => Option.some obj
  | field :: rest =>
      if hasattrPy obj field then getPath (getattrPy obj field) rest else Option.none

/-- A generic wire document value (JSON, and YAML with the same shape). -/
inductive Json where
  | null
  | str (s : String)
  | num (n : Int)
  | bool (b : Bool)
  | arr (xs : List Json)
  | obj (fields : List (String × Json))

/-- Modelled from the spec: the document-level overlay of §4.4 (the
shallow top-level merge of an old request document with a new one) has
no implementation under `src/`; only this CLI fork's flag-based paths
are present.  Following the spec's words, every key of the new document
replaces the old document's value for that key in its entirety, and
keys absent from the new document keep the old value; realised as the
Python dict union `{**old, **new}`. -/
def mergeDocuments (old new : List (String × Json)) : List (String × Json) :=
  new.foldl (fun acc kv => dictInsert acc kv.1 kv.2) old

/-- `DeploymentStatus` from `schemas.py`. -/
inductive DeploymentStatus where
  | unknown
  | nondeployed
  | running
  | unhealthy
  | failed
  | deploying
deriving DecidableEq

/-- The fixed polling interval of the blocking `terminate` wait loop:
`sleep(0.33)`. -/
def sleepInterval : ℚ := 33 / 100

/-- The blocking wait loop of `terminate` (lines 215–231): poll the
deployment status, stop as soon as it is `non-deployed`, report a
timeout once `retries >= 30`, otherwise sleep one interval, increment
`retries` and loop.  `status i` is the status observed by the i-th poll;
the result is `(terminated?, retries at exit)`, where the retry counter
also counts the sleeps performed. -/
def terminateLoop (status : Nat → DeploymentStatus) (retries : Nat) :
    Bool × Nat :=
  if status retries = DeploymentStatus.nondeployed then (true, retries)
  else if 30 ≤ retries then (false, retries)
  else terminateLoop status (retries + 1)
termination_by 31 - retries
decreasing_by omega

/-- Entry into the blocking wait loop: `retries = 0`. -/
def terminateBlock (status : Nat → DeploymentStatus) : Bool × Nat :=
  terminateLoop status 0

/-- A naive `datetime.datetime` value at the precision of the encode
pattern of `schemas.py` (`time_format = "%Y-%m-%d %H:%M:%S.%f"`):
microseconds, no timezone offset.  An aware datetime encodes to the same
wire text as its naive wall-clock reading, so values compared at the
pattern's precision carry exactly these components. -/
structure PyDatetime where
  year : Nat
  month : Nat
  day : Nat
  hour : Nat
  minute : Nat
  second : Nat
  microsecond : Nat
deriving DecidableEq

/-- Well-formedness of a datetime value: component ranges of Python's
`datetime` (with four-digit years, as assumed by the `%Y` slot of the
fixed pattern). -/
def PyDatetime.WF (d : PyDatetime) : Prop :=
  1000 ≤ d.year ∧ d.year ≤ 9999 ∧ 1 ≤ d.month ∧ d.month ≤ 12 ∧
    1 ≤ d.day ∧ d.day ≤ 31 ∧ d.hour ≤ 23 ∧ d.minute ≤ 59 ∧
    d.second ≤ 59 ∧ d.microsecond < 1000000

instance : DecidablePred PyDatetime.WF := fun d => by
  unfold PyDatetime.WF
  infer_instance

/-- The decimal digit character for `d < 10`. -/
def digitChar (d : Nat) : Char := Char.ofNat (48 + d)

/-- The numeric value of a decimal digit character. -/
def charDigit (c : Char) : Nat := c.toNat - 48

/-- The decimal digit characters of `n`, most significant first
(empty for `0`). -/
def natChars (n : Nat) : List Char :=
  ((Nat.digits 10 n).map digitChar).reverse

/-- `strftime`-style zero padding of `n` to width `w`. -/
def padChars (w n : Nat) : List Char :=
  List.replicate (w - (natChars n).length) '0' ++ natChars n

/-- The number denoted by a run of decimal digit characters. -/
def parseNatChars (cs : List Char) : Nat :=
  cs.foldl (fun a c => 10 * a + charDigit c) 0

/-- `time_obj.strftime(time_format)` with
`time_format = "%Y-%m-%d %H:%M:%S.%f"` from `schemas.py`: the fixed
pattern `YYYY-MM-DD HH:MM:SS.ffffff`. -/
def strftimeChars (d : PyDatetime) : List Char :=
  padChars 4 d.year ++ '-' ::
    (padChars 2 d.month ++ '-' ::
      (padChars 2 d.day ++ ' ' ::
        (padChars 2 d.hour ++ ':' ::
          (padChars 2 d.minute ++ ':' ::
            (padChars 2 d.second ++ '.' :: padChars 6 d.microsecond)))))

/-- `datetime_encoder` from `schemas.py`: `None` for a falsy argument
(a `datetime` instance is always truthy), otherwise the formatted
pattern. -/
def datetime_encoder (time_obj : Option PyDatetime) : Option String :=
  match time_obj with
  | Option.none => Option.none
  | Option.some d => Option.some (String.mk (strftimeChars d))

/-- Read exactly `k` decimal digit characters as a number. -/
def readFixedNat (k : Nat) (cs : List Char) : Option (Nat × List Char) :=
  let pre := cs.take k
  if pre.length == k && pre.all Char.isDigit then
    Option.some (parseNatChars pre, cs.drop k)
  else Option.none

/-- Consume one expected separator character. -/
def expectChar (c : Char) (cs : List Char) : Option (List Char) :=
  match cs with
  | d :: rest => if d = c then Option.some rest else Option.none
  | [] => Option.none

/-- Modelled from the spec: `dateutil.parser.parse` (an external
library) is the lenient decode of §4.2, accepting any unambiguous
date/time string.  We model its restriction to the fixed encode pattern
`YYYY-MM-DD HH:MM:SS.ffffff` — the only form the round trip exercises —
where the lenient parse recovers exactly the written components. -/
def strptimeChars (cs : List Char) : Option PyDatetime := do
  let (y, cs) ← readFixedNat 4 cs
  let cs ← expectChar '-' cs
  let (mo, cs) ← readFixedNat 2 cs
  let cs ← expectChar '-' cs
  let (d, cs) ← readFixedNat 2 cs
  let cs ← expectChar ' ' cs
  let (h, cs) ← readFixedNat 2 cs
  let cs ← expectChar ':' cs
  let (mi, cs) ← readFixedNat 2 cs
  let cs ← expectChar ':' cs
  let (s, cs) ← readFixedNat 2 cs
  let cs ← expectChar '.' cs
  let (us, cs) ← readFixedNat 6 cs
  if cs.isEmpty then Option.some ⟨y, mo, d, h, mi, s, us⟩ else Option.none

/-- `datetime_decoder` from `schemas.py`: `None` for a falsy argument
(absent or empty string), otherwise the lenient parse; outer `none`
models the parse raising on an unparseable string. -/
def datetime_decoder (datetime_str : Option String) : Option (Option PyDatetime) :=
  match datetime_str with
  | Option.none => Option.some Option.none
  | Option.some s =>
      if s = "" then Option.some Option.none
      else (strptimeChars s.data).map Option.some

/-- The declared field types of the schema model (§3/§4.1): scalars,
timestamps, closed string enumerations, optionals, sequences, records
with a fixed field list, and string-keyed mappings. -/
inductive SchemaTy where
  | str
  | int
  | bool
  | datetime
  | enum (values : List String)
  | opt (t : SchemaTy)
  | list (t : SchemaTy)
  | record (fields : List (String × SchemaTy))
  | smap (t : SchemaTy)

/-- A typed schema value: the runtime shapes the converter exchanges
with the typed model. -/
inductive TypedVal where
  | str (s : String)
  | int (n : Int)
  | bool (b : Bool)
  | datetime (d : PyDatetime)
  | enum (s : String)
  | none
  | some (v : TypedVal)
  | list (xs : List TypedVal)
  | record (fields : List (String × TypedVal))
  | smap (entries : List (String × TypedVal))

mutual

/-- Modelled from the spec: `converter.unstructure` (the cattrs
recursion of §4.2, an external library, with the repository's registered
`datetime_encoder` hook): records and mappings become objects, sequences
arrays, enumerations their string value, absent optionals a wire null,
timestamps the fixed pattern. -/
def encodeVal : TypedVal → Json
  | TypedVal.str s => Json.str s
  | TypedVal.int n => Json.num n
  | TypedVal.bool b => Json.bool b
  | TypedVal.datetime d =>
      match datetime_encoder (Option.some d) with
      | Option.some s => Json.str s
      | Option.none => Json.null
  | TypedVal.enum s => Json.str s
  | TypedVal.none => Json.null
  | TypedVal.some v => encodeVal v
  | TypedVal.list xs => Json.arr (encodeList xs)
  | TypedVal.record fs => Json.obj (encodeFields fs)
  | TypedVal.smap es => Json.obj (encodeFields es)

/-- Encode the elements of a sequence. -/
def encodeList : List TypedVal → List Json
  | [] => []
  | x :: xs => encodeVal x :: encodeList xs

/-- Encode the fields of a record or the entries of a mapping. -/
def encodeFields : List (String × TypedVal) → List (String × Json)
  | [] => []
  | (k, v) :: rest => (k, encodeVal v) :: encodeFields rest

end

/-- First entry of a wire object with the given key. -/
def jsonLookup (name : String) (entries : List (String × Json)) : Option Json :=
  (entries.find? (fun kv => kv.1 == name)).map Prod.snd

mutual

/-- Modelled from the spec: `converter.structure` (the cattrs recursion
of §4.2, with the repository's registered `datetime_decoder` hook).
`none` is the `ValidationError` of §7: a missing required field, a
scalar of the wrong shape, or a string matching no enumeration member;
no partial value is returned.  Wire null and the empty string decode a
timestamp to "no value", per `datetime_decoder`. -/
def decodeVal : SchemaTy → Json → Option TypedVal
  | SchemaTy.str, Json.str s => Option.some (TypedVal.str s)
  | SchemaTy.int, Json.num n => Option.some (TypedVal.int n)
  | SchemaTy.bool, Json.bool b => Option.some (TypedVal.bool b)
  | SchemaTy.datetime, j =>
      (match j with
       | Json.null => Option.some TypedVal.none
       | Json.str s =>
           if s = "" then Option.some TypedVal.none
           else (strptimeChars s.data).map TypedVal.datetime
       | _ => Option.none)
  | SchemaTy.enum vs, Json.str s =>
      if s ∈ vs then Option.some (TypedVal.enum s) else Option.none
  | SchemaTy.opt t, j =>
      (match j with
       | Json.null => Option.some TypedVal.none
       | _ => (decodeVal t j).map TypedVal.some)
  | SchemaTy.list t, Json.arr xs => (decodeListVals t xs).map TypedVal.list
  | SchemaTy.record tfs, Json.obj entries =>
      (decodeFieldVals tfs entries).map TypedVal.record
  | SchemaTy.smap t, Json.obj entries =>
      (decodeMapVals t entries).map TypedVal.smap
  | _, _ => Option.none

/-- Decode the elements of a wire array. -/
def decodeListVals (t : SchemaTy) : List Json → Option (List TypedVal)
  | [] => Option.some []
  | j :: js => do
      let v ← decodeVal t j
      let vs ← decodeListVals t js
      Option.some (v :: vs)

/-- Decode the declared fields of a record, each looked up by name in
the wire object. -/
def decodeFieldVals : List (String × SchemaTy) → List (String × Json) →
    Option (List (String × TypedVal))
  | [], _ => Option.some []
  | (name, ty) :: rest, entries => do
      let j ← jsonLookup name entries
      let v ← decodeVal ty j
      let vs ← decodeFieldVals rest entries
      Option.some ((name, v) :: vs)

/-- Decode the entries of a string-keyed mapping. -/
def decodeMapVals (t : SchemaTy) : List (String × Json) →
    Option (List (String × TypedVal))
  | [] => Option.some []
  | (k, j) :: rest => do
      let v ← decodeVal t j
      let vs ← decodeMapVals t rest
      Option.some ((k, v) :: vs)

end

/-- Well-formed typed values of a schema type: structural typing per the
declared field types of §3, with well-formed timestamps, enumeration
values drawn from the member list, record fields matching the declared
names in order (names unique), and unique mapping keys. -/
inductive HasTy : TypedVal → SchemaTy → Prop where
  | str (s : String) : HasTy (TypedVal.str s) SchemaTy.str
  | int (n : Int) : HasTy (TypedVal.int n) SchemaTy.int
  | bool (b : Bool) : HasTy (TypedVal.bool b) SchemaTy.bool
  | datetime (d : PyDatetime) (h : d.WF) : HasTy (TypedVal.datetime d) SchemaTy.datetime
  | enum (s : String) (vs : List String) (h : s ∈ vs) :
      HasTy (TypedVal.enum s) (SchemaTy.enum vs)
  | noneV (t : SchemaTy) : HasTy TypedVal.none (SchemaTy.opt t)
  | someV (v : TypedVal) (t : SchemaTy) (h : HasTy v t) :
      HasTy (TypedVal.some v) (SchemaTy.opt t)
  | list (xs : List TypedVal) (t : SchemaTy) (h : ∀ x ∈ xs, HasTy x t) :
      HasTy (TypedVal.list xs) (SchemaTy.list t)
  | record (vfs : List (String × TypedVal)) (tfs : List (String × SchemaTy))
      (hlen : vfs.length = tfs.length)
      (hnames : ∀ p ∈ vfs.zip tfs, p.1.1 = p.2.1)
      (hvals : ∀ p ∈ vfs.zip tfs, HasTy p.1.2 p.2.2)
      (hnodup : (tfs.map Prod.fst).Nodup) :
      HasTy (TypedVal.record vfs) (SchemaTy.record tfs)
  | smap (es : List (String × TypedVal)) (t : SchemaTy)
      (h : ∀ p ∈ es, HasTy p.2 t) (hnodup : (es.map Prod.fst).Nodup) :
      HasTy (TypedVal.smap es) (SchemaTy.smap t)

/-- Well-formed schema types: the schemas of `schemas.py` never nest an
optional directly inside an optional (Python's `Optional` collapses the
nesting anyway). -/
inductive SchemaWF : SchemaTy → Prop where
  | str : SchemaWF SchemaTy.str
  | int : SchemaWF SchemaTy.int
  | bool : SchemaWF SchemaTy.bool
  | datetime : SchemaWF SchemaTy.datetime
  | enum (vs : List String) : SchemaWF (SchemaTy.enum vs)
  | opt (t : SchemaTy) (h : SchemaWF t) (hn : ∀ t', t ≠ SchemaTy.opt t') :
      SchemaWF (SchemaTy.opt t)
  | list (t : SchemaTy) (h : SchemaWF t) : SchemaWF (SchemaTy.list t)
  | record (tfs : List (String × SchemaTy)) (h : ∀ p ∈ tfs, SchemaWF p.2) :
      SchemaWF (SchemaTy.record tfs)
  | smap (t : SchemaTy) (h : SchemaWF t) : SchemaWF (SchemaTy.smap t)

/-- The declared shape of `BaseSchema` from `schemas.py`. -/
def BaseSchemaTy : SchemaTy :=
  SchemaTy.record
    [("uid", SchemaTy.str), ("created_at", SchemaTy.datetime),
     ("updated_at", SchemaTy.opt SchemaTy.datetime),
     ("deleted_at", SchemaTy.opt SchemaTy.datetime)]

/-- The declared shape of `DeploymentStatus` from `schemas.py`. -/
def DeploymentStatusTy : SchemaTy :=
  SchemaTy.enum ["unknown", "non-deployed", "running", "unhealthy", "failed", "deploying"]

/-!
## Theorems

Helper lemmas first, then one theorem per claim (with its witness or
counterexample).
-/

theorem dictInsert_not_mem {α : Type} (m : List (String × α)) (k : String) (v : α)
    (h : k ∉ m.map Prod.fst) : dictInsert m k v = m ++ [(k, v)] := by
  unfold dictInsert
  rw [if_neg]
  simpa using h

theorem dictInsert_update_keys {α : Type} (m : List (String × α)) (k : String) (v : α) :
    (m.map (fun kv => if kv.1 = k then (kv.1, v) else kv)).map Prod.fst =
      m.map Prod.fst := by
  induction m with
  | nil => rfl
  | cons kv rest ih =>
      simp only [List.map_cons, ih, List.cons.injEq, and_true]
      split <;> rfl

theorem dictInsert_keys_subset {α : Type} (m : List (String × α)) (k : String) (v : α) :
    ∀ k' ∈ (dictInsert m k v).map Prod.fst, k' ∈ m.map Prod.fst ∨ k' = k := by
  intro k' hk'
  unfold dictInsert at hk'
  by_cases hc : (m.map Prod.fst).contains k
  · rw [if_pos hc, dictInsert_update_keys] at hk'
    exact Or.inl hk'
  · rw [if_neg hc] at hk'
    simp only [List.map_append, List.mem_append, List.map_cons, List.map_nil,
      List.mem_singleton] at hk'
    rcases hk' with h | h
    · exact Or.inl h
    · exact Or.inr h

theorem parse_config_fold {α : Type} (stem pre : String) (l : List (String × α)) :
    ∀ acc : List (String × α),
      (∀ kv ∈ l, pyStartsWith kv.1 stem = true →
        pyRemoveLeading kv.1 pre ∉ acc.map Prod.fst) →
      ((l.filter (fun kv => pyStartsWith kv.1 stem)).map
        (fun kv => pyRemoveLeading kv.1 pre)).Nodup →
      l.foldl (fun acc kv =>
          if pyStartsWith kv.1 stem then dictInsert acc (pyRemoveLeading kv.1 pre) kv.2
          else acc) acc =
        acc ++ (l.filter (fun kv => pyStartsWith kv.1 stem)).map
          (fun kv => (pyRemoveLeading kv.1 pre, kv.2)) := by
  induction l with
  | nil => intro acc _ _; simp
  | cons kv l ih =>
      intro acc hdis hnodup
      by_cases hs : pyStartsWith kv.1 stem = true
      · rw [List.filter_cons_of_pos (by simpa using hs)] at hnodup ⊢
        simp only [List.map_cons, List.nodup_cons] at hnodup
        simp only [List.foldl_cons, if_pos hs,
          dictInsert_not_mem _ _ _ (hdis kv (List.mem_cons_self kv l) hs)]
        rw [ih (acc ++ [(pyRemoveLeading kv.1 pre, kv.2)]) ?_ hnodup.2]
        · simp
        · intro kv2 hkv2 hs2
          simp only [List.map_append, List.mem_append]
          rintro (h | h)
          · exact hdis kv2 (List.mem_cons_of_mem kv hkv2) hs2 h
          · simp only [List.map_cons, List.map_nil, List.mem_singleton] at h
            exact hnodup.1 (h ▸ List.mem_map_of_mem _ (List.mem_filter.mpr ⟨hkv2, by simpa using hs2⟩))
      · rw [List.filter_cons_of_neg (by simpa using hs)] at hnodup ⊢
        simp only [List.foldl_cons, if_neg hs]
        exact ih acc (fun kv2 h2 => hdis kv2 (List.mem_cons_of_mem kv h2)) hnodup

/-- Claim C2 (amended): for every flat map and root prefix, provided the
stripped keys of the surviving entries are pairwise distinct (which
always holds when every surviving key extends the root with a dot —
stripping is injective there), `parse_config` returns exactly the
entries whose key starts with the root, the root segment with its
trailing dot stripped from each surviving key, values unchanged and
relative order preserved, and nothing else. -/
theorem parse_config_prefix_filter {α : Type} (stem : String)
    (config : List (String × α))
    (h : ((config.filter (fun kv => pyStartsWith kv.1 stem)).map
      (fun kv => pyRemoveLeading kv.1
        (if pyEndsWith stem "." then stem else stem ++ "."))).Nodup) :
    parse_config stem config = specFilterMap stem config := by
  unfold parse_config specFilterMap
  exact parse_config_fold stem _ config [] (by simp) h

/-- Claim C2, counterexample to the unconditional statement: with input
keys `config` and `config.config` (both survive the `startswith` filter;
the second strips to `config`, the first is left unchanged by
`removeprefix`), the dict comprehension collapses the two entries, so
the first entry's value is lost and the result is not the claimed
order-preserving projection. -/
theorem parse_config_prefix_filter_cex :
    parse_config "config" [("config", PyVal.int 1), ("config.config", PyVal.int 2)] ≠
      specFilterMap "config" [("config", PyVal.int 1), ("config.config", PyVal.int 2)] := by
  decide

theorem parse_config_prefix_filter_witness :
    (((([("config.resources.requests.cpu", PyVal.str "1000m"),
         ("config.enable_ingress", PyVal.str "1"),
         ("other", PyVal.str "x")] :
        List (String × PyVal)).filter (fun kv => pyStartsWith kv.1 "config")).map
      (fun kv => pyRemoveLeading kv.1
        (if pyEndsWith "config" "." then "config" else "config" ++ "."))).Nodup) ∧
    parse_config "config"
        [("config.resources.requests.cpu", PyVal.str "1000m"),
         ("config.enable_ingress", PyVal.str "1"),
         ("other", PyVal.str "x")] =
      specFilterMap "config"
        [("config.resources.requests.cpu", PyVal.str "1000m"),
         ("config.enable_ingress", PyVal.str "1"),
         ("other", PyVal.str "x")] :=
  ⟨by decide, parse_config_prefix_filter "config" _ (by decide)⟩

theorem parse_config_foldl_keys {α : Type} (stem pre : String)
    (l : List (String × α)) :
    ∀ acc : List (String × α), ∀ k' ∈ (l.foldl (fun acc kv =>
        if pyStartsWith kv.1 stem then dictInsert acc (pyRemoveLeading kv.1 pre) kv.2
        else acc) acc).map Prod.fst,
      k' ∈ acc.map Prod.fst ∨
        ∃ kv ∈ l, pyStartsWith kv.1 stem = true ∧ pyRemoveLeading kv.1 pre = k' := by
  induction l with
  | nil => intro acc k' hk'; exact Or.inl hk'
  | cons kv l ih =>
      intro acc k' hk'
      simp only [List.foldl_cons] at hk'
      by_cases hs : pyStartsWith kv.1 stem = true
      · rw [if_pos hs] at hk'
        rcases ih (dictInsert acc (pyRemoveLeading kv.1 pre) kv.2) k' hk' with h | ⟨kv2, h2, h3, h4⟩
        · rcases dictInsert_keys_subset acc (pyRemoveLeading kv.1 pre) kv.2 k' h with h' | h'
          · exact Or.inl h'
          · exact Or.inr ⟨kv, List.mem_cons_self kv l, hs, h'.symm⟩
        · exact Or.inr ⟨kv2, List.mem_cons_of_mem kv h2, h3, h4⟩
      · rw [if_neg hs] at hk'
        rcases ih acc k' hk' with h | ⟨kv2, h2, h3, h4⟩
        · exact Or.inl h
        · exact Or.inr ⟨kv2, List.mem_cons_of_mem kv h2, h3, h4⟩

theorem parse_config_keys_origin {α : Type} (stem : String)
    (config : List (String × α)) :
    ∀ k' ∈ (parse_config stem config).map Prod.fst,
      ∃ kv ∈ config, pyStartsWith kv.1 stem = true ∧
        pyRemoveLeading kv.1 (if pyEndsWith stem "." then stem else stem ++ ".") = k' := by
  intro k' hk'
  rcases parse_config_foldl_keys stem _ config [] k' hk' with h | h
  · simp at h
  · exact h

theorem enable_ingress_key_eq (k : String)
    (h1 : pyStartsWith k "config" = true)
    (h2 : pyRemoveLeading k "config." = "enable_ingress") :
    k = "config.enable_ingress" := by
  unfold pyRemoveLeading at h2
  by_cases hp : ("config." : String).data.isPrefixOf k.data
  · rw [if_pos hp] at h2
    obtain ⟨t, ht⟩ := List.isPrefixOf_iff_prefix.mp hp
    have hdrop : k.data.drop ("config." : String).data.length = t := by
      rw [← ht, List.drop_left]
    rw [hdrop] at h2
    have ht' : t = ("enable_ingress" : String).data := by
      have := congrArg String.data h2
      simpa using this
    have : k.data = ("config.enable_ingress" : String).data := by
      rw [← ht, ht']
      rfl
    have hk : String.mk k.data = String.mk ("config.enable_ingress" : String).data := by
      rw [this]
    simpa using hk
  · rw [if_neg hp] at h2
    subst h2
    exact absurd h1 (by decide)

theorem dictLookup_eq_none_iff {α : Type} (m : List (String × α)) (k : String) :
    dictLookup m k = Option.none ↔ k ∉ m.map Prod.fst := by
  unfold dictLookup
  rw [Option.map_eq_none', List.find?_eq_none]
  constructor
  · intro h hk
    simp only [List.mem_map] at hk
    obtain ⟨kv, hkv, rfl⟩ := hk
    exact absurd (by simp : (kv.1 == kv.1) = true) (h kv hkv)
  · intro h kv hkv
    simp only [beq_iff_eq]
    intro heq
    exact h (heq ▸ List.mem_map_of_mem Prod.fst hkv)

theorem exceptBind_error_cases {α β : Type} {x : Except PyErr α}
    {f : α → Except PyErr β} {e : PyErr} (h : x >>= f = Except.error e) :
    x = Except.error e ∨ ∃ b, x = Except.ok b ∧ f b = Except.error e := by
  cases x with
  | error e' =>
      left
      simpa [Bind.bind, Except.bind] using h
  | ok b =>
      right
      exact ⟨b, rfl, by simpa [Bind.bind, Except.bind] using h⟩

theorem mkLabelItemSchema_error_shape (args : List String) (e : PyErr)
    (h : mkLabelItemSchema args = Except.error e) : ∃ msg, e = PyErr.typeErr msg := by
  unfold mkLabelItemSchema at h
  split at h
  · cases h
  · (cases h; exact ⟨_, rfl⟩)

theorem mkDeploymentTargetResourceItem_error_shape (kw : List (String × PyVal))
    (e : PyErr) (h : mkDeploymentTargetResourceItem kw = Except.error e) :
    ∃ msg, e = PyErr.typeErr msg := by
  unfold mkDeploymentTargetResourceItem at h
  split at h
  · split at h
    · cases h
    · (cases h; exact ⟨_, rfl⟩)
  · (cases h; exact ⟨_, rfl⟩)

theorem mkDeploymentTargetHPAConf_error_shape (kw : List (String × PyVal))
    (e : PyErr) (h : mkDeploymentTargetHPAConf kw = Except.error e) :
    ∃ msg, e = PyErr.typeErr msg := by
  unfold mkDeploymentTargetHPAConf at h
  split at h
  · split at h
    · cases h
    · (cases h; exact ⟨_, rfl⟩)
  · (cases h; exact ⟨_, rfl⟩)

theorem pyListMap_error_shape {α β : Type} (f : α → Except PyErr β)
    (hf : ∀ a e, f a = Except.error e → ∃ msg, e = PyErr.typeErr msg)
    (l : List α) : ∀ e : PyErr, pyListMap f l = Except.error e →
      ∃ msg, e = PyErr.typeErr msg := by
  induction l with
  | nil => intro e h; cases h
  | cons a l ih =>
      intro e h
      simp only [pyListMap] at h
      rcases exceptBind_error_cases h with h1 | ⟨b, _, h2⟩
      · exact hf a e h1
      · rcases exceptBind_error_cases h2 with h3 | ⟨bs, _, h4⟩
        · exact ih e h3
        · cases h4

theorem buildRunnerConfig_error_shape (kwargs : List (String × PyVal))
    (runner : String) (e : PyErr)
    (h : buildRunnerConfig kwargs runner = Except.error e) :
    ∃ msg, e = PyErr.typeErr msg := by
  simp only [buildRunnerConfig] at h
  rcases exceptBind_error_cases h with h1 | ⟨b1, _, h⟩
  · exact pyListMap_error_shape _ (fun a e ha => mkLabelItemSchema_error_shape _ e ha) _ e h1
  rcases exceptBind_error_cases h with h1 | ⟨b2, _, h⟩
  · exact mkDeploymentTargetHPAConf_error_shape _ e h1
  rcases exceptBind_error_cases h with h1 | ⟨b3, _, h⟩
  · exact mkDeploymentTargetResourceItem_error_shape _ e h1
  rcases exceptBind_error_cases h with h1 | ⟨b4, _, h⟩
  · exact mkDeploymentTargetResourceItem_error_shape _ e h1
  cases h

/-- Claim C10: the fresh-build assembly of `create` looks up
`config["enable_ingress"]` unconditionally.  When the flag map has no
`config.enable_ingress` key, the filtered config map has no
`enable_ingress` key either, and assembly fails: with the missing-key
(`KeyError`) failure when the lookup is reached, or with one of the
`TypeError`s the earlier leaf constructions can raise — never with a
`DeploymentTargetConfig` whose `enable_ingress` is unset.  Hence every
successfully assembled fresh config had the flag supplied. -/
theorem create_requires_enable_ingress (kwargs : List (String × PyVal))
    (h : "config.enable_ingress" ∉ kwargs.map Prod.fst) :
    dictLookup (parse_config "config" kwargs) "enable_ingress" = Option.none ∧
      (createTargetConfig kwargs = Except.error (PyErr.keyErr "enable_ingress") ∨
        ∃ msg, createTargetConfig kwargs = Except.error (PyErr.typeErr msg)) := by
  have hnone : dictLookup (parse_config "config" kwargs) "enable_ingress" =
      Option.none := by
    rw [dictLookup_eq_none_iff]
    intro hmem
    obtain ⟨kv, hkv, hs, hr⟩ := parse_config_keys_origin "config" kwargs _ hmem
    rw [(by decide :
      (if pyEndsWith "config" "." then "config" else "config" ++ ".") = "config.")] at hr
    have hk : kv.1 = "config.enable_ingress" := enable_ingress_key_eq kv.1 hs hr
    exact h (hk ▸ List.mem_map_of_mem Prod.fst hkv)
  refine ⟨hnone, ?_⟩
  simp only [createTargetConfig, hnone]
  cases h1 : pyListMap
      (fun runner => do
        let rc ← buildRunnerConfig kwargs runner
        Except.ok (runner, rc))
      (runnerNames kwargs) with
  | error e =>
      right
      have he : ∃ msg, e = PyErr.typeErr msg := by
        refine pyListMap_error_shape _ ?_ _ e h1
        intro a e' ha
        rcases exceptBind_error_cases ha with hb | ⟨b, _, hb⟩
        · exact buildRunnerConfig_error_shape kwargs a e' hb
        · cases hb
      obtain ⟨msg, rfl⟩ := he
      exact ⟨msg, by simp [h1, Bind.bind, Except.bind]⟩
  | ok rcs =>
      cases h2 : mkDeploymentTargetResourceItem
          (parse_config "config.resources.requests" kwargs) with
      | error e =>
          right
          obtain ⟨msg, rfl⟩ := mkDeploymentTargetResourceItem_error_shape _ e h2
          exact ⟨msg, by simp [h1, h2, Bind.bind, Except.bind]⟩
      | ok requests =>
          cases h3 : mkDeploymentTargetResourceItem
              (parse_config "config.resources.limits" kwargs) with
          | error e =>
              right
              obtain ⟨msg, rfl⟩ := mkDeploymentTargetResourceItem_error_shape _ e h3
              exact ⟨msg, by simp [h1, h2, h3, Bind.bind, Except.bind]⟩
          | ok limits =>
              cases h4 : mkDeploymentTargetHPAConf
                  (parse_config "config.hpa_conf" kwargs) with
              | error e =>
                  right
                  obtain ⟨msg, rfl⟩ := mkDeploymentTargetHPAConf_error_shape _ e h4
                  exact ⟨msg, by simp [h1, h2, h3, h4, Bind.bind, Except.bind]⟩
              | ok hpa =>
                  cases h5 : pyListMap
                      (fun env => mkLabelItemSchema (pySplit env "="))
                      ((parse_config "config.env" kwargs).map Prod.fst) with
                  | error e =>
                      right
                      obtain ⟨msg, rfl⟩ := pyListMap_error_shape _
                        (fun a e' ha => mkLabelItemSchema_error_shape _ e' ha) _ e h5
                      exact ⟨msg, by simp [h1, h2, h3, h4, h5, Bind.bind, Except.bind]⟩
                  | ok envLabels =>
                      left
                      simp [h1, h2, h3, h4, h5, hnone, Bind.bind, Except.bind]

theorem create_requires_enable_ingress_witness :
    ("config.enable_ingress" ∉
        ([("config.resources.requests.cpu", PyVal.str "1000m")].map Prod.fst)) ∧
      (dictLookup (parse_config "config"
          [("config.resources.requests.cpu", PyVal.str "1000m")]) "enable_ingress" =
        Option.none ∧
        (createTargetConfig [("config.resources.requests.cpu", PyVal.str "1000m")] =
            Except.error (PyErr.keyErr "enable_ingress") ∨
          ∃ msg, createTargetConfig
              [("config.resources.requests.cpu", PyVal.str "1000m")] =
            Except.error (PyErr.typeErr msg))) :=
  ⟨by decide, create_requires_enable_ingress _ (by decide)⟩

/-- Claim C3, evaluated at the claimed input: with exactly the flag
pairs `resources.requests.cpu="1000m"`, `resources.limits.cpu="1500m"`,
`hpa_conf.min_replicas="1"`, `hpa_conf.max_replicas="10"`,
`enable_ingress="1"` under the config root, the create-path assembler
does not produce a `DeploymentTargetConfig`: the attrs constructor
`DeploymentTargetResourceItem(**{"cpu": "1000m"})` is missing the
required `memory` and `gpu` keywords and raises `TypeError` (and the
code would in any case keep `min_replicas`/`max_replicas`/
`enable_ingress` as the raw strings, never coercing them to int/bool as
the claim states). -/
theorem create_assembly_c3_fails :
    createTargetConfig
        [("config.resources.requests.cpu", PyVal.str "1000m"),
         ("config.resources.limits.cpu", PyVal.str "1500m"),
         ("config.hpa_conf.min_replicas", PyVal.str "1"),
         ("config.hpa_conf.max_replicas", PyVal.str "10"),
         ("config.enable_ingress", PyVal.str "1")] =
      Except.error
        (PyErr.typeErr "DeploymentTargetResourceItem() missing required argument") := by
  decide

/-- Claim C4, evaluated on the token `"FOO=bar=baz"`: the code splits on
every `=` (`env.split("=")` with no maxsplit), producing three parts, so
`LabelItemSchema(*parts)` raises `TypeError` instead of yielding the
claimed Label `("FOO", "bar=baz")`; an otherwise fully populated flag
map with that env token therefore fails to assemble. -/
theorem env_split_c4_fails :
    pySplit "FOO=bar=baz" "=" = ["FOO", "bar", "baz"] ∧
      mkLabelItemSchema (pySplit "FOO=bar=baz" "=") =
        Except.error (PyErr.typeErr "LabelItemSchema() takes 2 positional arguments") ∧
      createTargetConfig
          [("config.resources.requests.cpu", PyVal.str "1"),
           ("config.resources.requests.memory", PyVal.str "1"),
           ("config.resources.requests.gpu", PyVal.str "1"),
           ("config.resources.limits.cpu", PyVal.str "1"),
           ("config.resources.limits.memory", PyVal.str "1"),
           ("config.resources.limits.gpu", PyVal.str "1"),
           ("config.hpa_conf.cpu", PyVal.str "1"),
           ("config.hpa_conf.gpu", PyVal.str "1"),
           ("config.hpa_conf.memory", PyVal.str "1"),
           ("config.hpa_conf.qps", PyVal.str "1"),
           ("config.hpa_conf.min_replicas", PyVal.str "1"),
           ("config.hpa_conf.max_replicas", PyVal.str "1"),
           ("config.env.FOO=bar=baz", PyVal.str "1"),
           ("config.enable_ingress", PyVal.str "1")] =
        Except.error (PyErr.typeErr "LabelItemSchema() takes 2 positional arguments") := by
  refine ⟨by decide, by decide, by decide⟩

/-- Claim C5, evaluated at the claimed input
`{runners.a.resources.requests.cpu=1, runners.b.hpa_conf.qps=10}`: the
grouping step itself collects exactly the runner names `a` and `b`, but
the assembler then raises `TypeError` building runner `a`'s
`DeploymentTargetHPAConf(**{})` (all six fields are required keywords),
so no runner mapping is ever produced. -/
theorem runner_grouping_c5_fails :
    runnerNames
        [("config.runners.a.resources.requests.cpu", PyVal.str "1"),
         ("config.runners.b.hpa_conf.qps", PyVal.int 10)] = ["a", "b"] ∧
      createTargetConfig
          [("config.runners.a.resources.requests.cpu", PyVal.str "1"),
           ("config.runners.b.hpa_conf.qps", PyVal.int 10)] =
        Except.error
          (PyErr.typeErr "DeploymentTargetHPAConf() missing required argument") := by
  refine ⟨by decide, by decide⟩

theorem dictLookup_cons_pos {α : Type} {kv : String × α} {fs : List (String × α)}
    {k : String} (h : kv.1 = k) : dictLookup (kv :: fs) k = Option.some kv.2 := by
  unfold dictLookup
  rw [List.find?_cons_of_pos _ (by simpa using h)]
  rfl

theorem dictLookup_cons_neg {α : Type} {kv : String × α} {fs : List (String × α)}
    {k : String} (h : kv.1 ≠ k) : dictLookup (kv :: fs) k = dictLookup fs k := by
  unfold dictLookup
  rw [List.find?_cons_of_neg _ (by simpa using h)]

theorem dictLookup_update_self {α : Type} (fs : List (String × α)) (field : String)
    (v : α) (h : field ∈ fs.map Prod.fst) :
    dictLookup (fs.map (fun kv => if kv.1 = field then (kv.1, v) else kv)) field =
      Option.some v := by
  induction fs with
  | nil => simp at h
  | cons kv fs ih =>
      simp only [List.map_cons]
      by_cases hk : kv.1 = field
      · rw [if_pos hk, dictLookup_cons_pos (show ((kv.1, v) : String × α).1 = field from hk)]
      · rw [if_neg hk, dictLookup_cons_neg hk]
        refine ih ?_
        simp only [List.map_cons, List.mem_cons] at h
        rcases h with h | h
        · exact absurd h.symm hk
        · exact h

theorem dictLookup_update_other {α : Type} (fs : List (String × α)) (field g : String)
    (v : α) (hg : g ≠ field) :
    dictLookup (fs.map (fun kv => if kv.1 = field then (kv.1, v) else kv)) g =
      dictLookup fs g := by
  induction fs with
  | nil => rfl
  | cons kv fs ih =>
      simp only [List.map_cons]
      by_cases hk : kv.1 = field
      · have hkg : kv.1 ≠ g := fun h => hg (h ▸ hk)
        rw [if_pos hk, dictLookup_cons_neg (show ((kv.1, v) : String × α).1 ≠ g from hkg),
          dictLookup_cons_neg hkg]
        exact ih
      · rw [if_neg hk]
        by_cases hkg : kv.1 = g
        · rw [dictLookup_cons_pos hkg, dictLookup_cons_pos hkg]
        · rw [dictLookup_cons_neg hkg, dictLookup_cons_neg hkg]
          exact ih

theorem setattrPy_ok_elim (obj : PyObj) (field : String) (value r : PyObj)
    (h : setattrPy obj field value = Except.ok r) :
    ∃ fs, obj = PyObj.record fs ∧ field ∈ fs.map Prod.fst ∧
      r = PyObj.record (fs.map (fun kv => if kv.1 = field then (kv.1, value) else kv)) := by
  cases obj with
  | record fs =>
      simp only [setattrPy] at h
      by_cases hc : (fs.map Prod.fst).contains field
      · rw [if_pos hc] at h
        injection h with h'
        exact ⟨fs, rfl, by simpa using hc, h'.symm⟩
      · rw [if_neg hc] at h
        exact Except.noConfusion h
  | v val => exact absurd h (by simp [setattrPy])
  | noneObj => exact absurd h (by simp [setattrPy])

theorem hasattr_record_iff (fs : List (String × PyObj)) (field : String) :
    hasattrPy (PyObj.record fs) field = true ↔ field ∈ fs.map Prod.fst := by
  unfold hasattrPy
  simp

theorem hasattr_update (fs : List (String × PyObj)) (field g : String) (value : PyObj) :
    hasattrPy
        (PyObj.record (fs.map (fun kv => if kv.1 = field then (kv.1, value) else kv))) g =
      hasattrPy (PyObj.record fs) g := by
  simp only [hasattrPy]
  rw [dictInsert_update_keys]

theorem getattr_update_self (fs : List (String × PyObj)) (field : String)
    (value : PyObj) (h : field ∈ fs.map Prod.fst) :
    getattrPy
        (PyObj.record (fs.map (fun kv => if kv.1 = field then (kv.1, value) else kv)))
        field = value := by
  simp only [getattrPy]
  rw [dictLookup_update_self _ _ _ h]
  rfl

theorem getattr_update_other (fs : List (String × PyObj)) (field g : String)
    (value : PyObj) (hg : g ≠ field) :
    getattrPy
        (PyObj.record (fs.map (fun kv => if kv.1 = field then (kv.1, value) else kv))) g =
      getattrPy (PyObj.record fs) g := by
  simp only [getattrPy]
  rw [dictLookup_update_other _ _ _ _ hg]

theorem walkSet_ok_spec (key : String) : ∀ (path : List String) (obj value r : PyObj),
    walkSet obj key path value = Except.ok r →
    getPath r path = Option.some value ∧
      ∀ q : List String, ¬ path <+: q → ¬ q <+: path → getPath r q = getPath obj q := by
  intro path
  induction path with
  | nil =>
      intro obj value r h
      exact absurd h (by simp [walkSet])
  | cons field rest ih =>
      intro obj value r h
      cases rest with
      | nil =>
          simp only [walkSet] at h
          obtain ⟨fs, rfl, hmem, rfl⟩ := setattrPy_ok_elim _ _ _ _ h
          refine ⟨?_, ?_⟩
          · simp only [getPath]
            rw [hasattr_update, if_pos ((hasattr_record_iff fs field).mpr hmem),
              getattr_update_self fs field value hmem]
          · intro q hq1 hq2
            cases q with
            | nil => exact absurd List.nil_prefix hq2
            | cons g q' =>
                by_cases hgf : g = field
                · subst hgf
                  exact absurd (List.cons_prefix_cons.mpr ⟨rfl, List.nil_prefix⟩) hq1
                · simp only [getPath]
                  rw [hasattr_update]
                  by_cases hg : hasattrPy (PyObj.record fs) g = true
                  · rw [if_pos hg, if_pos hg, getattr_update_other fs field g value hgf]
                  · rw [if_neg hg, if_neg hg]
      | cons r1 rs =>
          simp only [walkSet] at h
          by_cases hf : hasattrPy obj field = true
          · rw [if_pos hf] at h
            rcases hsub : walkSet (getattrPy obj field) key (r1 :: rs) value with e | sub
            · rw [hsub] at h
              exact absurd h (by simp [Bind.bind, Except.bind])
            · rw [hsub] at h
              simp only [Bind.bind, Except.bind] at h
              obtain ⟨hget, hunch⟩ := ih (getattrPy obj field) value sub hsub
              obtain ⟨fs, rfl, hmem, rfl⟩ := setattrPy_ok_elim _ _ _ _ h
              refine ⟨?_, ?_⟩
              · simp only [getPath]
                rw [hasattr_update, if_pos ((hasattr_record_iff fs field).mpr hmem),
                  getattr_update_self fs field sub hmem]
                exact hget
              · intro q hq1 hq2
                cases q with
                | nil => exact absurd List.nil_prefix hq2
                | cons g q' =>
                    by_cases hgf : g = field
                    · subst hgf
                      have hq1' : ¬ (r1 :: rs) <+: q' := fun hp =>
                        hq1 (List.cons_prefix_cons.mpr ⟨rfl, hp⟩)
                      have hq2' : ¬ q' <+: (r1 :: rs) := fun hp =>
                        hq2 (List.cons_prefix_cons.mpr ⟨rfl, hp⟩)
                      simp only [getPath]
                      rw [hasattr_update, if_pos ((hasattr_record_iff fs g).mpr hmem),
                        getattr_update_self fs g sub hmem, if_pos hf]
                      exact hunch q' hq1' hq2'
                    · simp only [getPath]
                      rw [hasattr_update]
                      by_cases hg : hasattrPy (PyObj.record fs) g = true
                      · rw [if_pos hg, if_pos hg, getattr_update_other fs field g sub hgf]
                      · rw [if_neg hg, if_neg hg]
          · rw [if_neg hf] at h
            exact Except.noConfusion h

theorem walkSet_error_spec (key : String) : ∀ (path : List String) (obj value : PyObj),
    getPath obj path.dropLast = Option.none →
    walkSet obj key path value =
      Except.error (PyErr.attrErr ("Can not set " ++ key ++ " in object")) := by
  intro path
  induction path with
  | nil =>
      intro obj value h
      simp [getPath] at h
  | cons field rest ih =>
      intro obj value h
      cases rest with
      | nil =>
          simp [getPath] at h
      | cons r1 rs =>
          rw [List.dropLast_cons₂] at h
          simp only [getPath] at h
          by_cases hf : hasattrPy obj field = true
          · rw [if_pos hf] at h
            simp only [walkSet]
            rw [if_pos hf, ih (getattrPy obj field) value h]
            simp [Bind.bind, Except.bind]
          · simp only [walkSet]
            rw [if_neg hf]

/-- Claim C6: the path-level overlay `set_config` walks all but the last
dot-separated segment by field lookup; if that walk fails at any
intermediate segment (no such attribute on the current object), the call
fails with the `ConfigPathError` (`AttributeError`) naming the full
failed path; and on success it replaces the final segment's value
outright with the given value (last write wins, no coercion) while every
path not comparable with the written one reads exactly as before. -/
theorem set_config_overlay (obj : PyObj) (key : String) (value : PyObj) :
    (getPath obj ((pySplit key ".").dropLast) = Option.none →
        set_config obj key value =
          Except.error (PyErr.attrErr ("Can not set " ++ key ++ " in object"))) ∧
      ∀ r, set_config obj key value = Except.ok r →
        getPath r (pySplit key ".") = Option.some value ∧
          ∀ q : List String, ¬ (pySplit key ".") <+: q → ¬ q <+: (pySplit key ".") →
            getPath r q = getPath obj q := by
  unfold set_config
  constructor
  · intro h
    exact walkSet_error_spec key (pySplit key ".") obj value h
  · intro r h
    exact walkSet_ok_spec key (pySplit key ".") obj value r h

theorem set_config_overlay_witness :
    (getPath
          (PyObj.record
            [("resources", PyObj.record
                [("requests", PyObj.record [("cpu", PyObj.v (PyVal.str "500m"))]),
                 ("limits", PyObj.noneObj)]),
             ("enable_ingress", PyObj.v (PyVal.bool true))])
          ((pySplit "autoscaling.min_replicas" ".").dropLast) = Option.none ∧
        set_config
            (PyObj.record
              [("resources", PyObj.record
                  [("requests", PyObj.record [("cpu", PyObj.v (PyVal.str "500m"))]),
                   ("limits", PyObj.noneObj)]),
               ("enable_ingress", PyObj.v (PyVal.bool true))])
            "autoscaling.min_replicas" (PyObj.v (PyVal.int 1)) =
          Except.error
            (PyErr.attrErr "Can not set autoscaling.min_replicas in object")) ∧
      (set_config
            (PyObj.record
              [("resources", PyObj.record
                  [("requests", PyObj.record [("cpu", PyObj.v (PyVal.str "500m"))]),
                   ("limits", PyObj.noneObj)]),
               ("enable_ingress", PyObj.v (PyVal.bool true))])
            "resources.requests.cpu" (PyObj.v (PyVal.str "1000m")) =
          Except.ok
            (PyObj.record
              [("resources", PyObj.record
                  [("requests", PyObj.record [("cpu", PyObj.v (PyVal.str "1000m"))]),
                   ("limits", PyObj.noneObj)]),
               ("enable_ingress", PyObj.v (PyVal.bool true))]) ∧
        getPath
            (PyObj.record
              [("resources", PyObj.record
                  [("requests", PyObj.record [("cpu", PyObj.v (PyVal.str "1000m"))]),
                   ("limits", PyObj.noneObj)]),
               ("enable_ingress", PyObj.v (PyVal.bool true))])
            (pySplit "resources.requests.cpu" ".") =
          Option.some (PyObj.v (PyVal.str "1000m")) ∧
        getPath
            (PyObj.record
              [("resources", PyObj.record
                  [("requests", PyObj.record [("cpu", PyObj.v (PyVal.str "1000m"))]),
                   ("limits", PyObj.noneObj)]),
               ("enable_ingress", PyObj.v (PyVal.bool true))]) ["enable_ingress"] =
          getPath
            (PyObj.record
              [("resources", PyObj.record
                  [("requests", PyObj.record [("cpu", PyObj.v (PyVal.str "500m"))]),
                   ("limits", PyObj.noneObj)]),
               ("enable_ingress", PyObj.v (PyVal.bool true))]) ["enable_ingress"]) := by
  have h := (set_config_overlay
      (PyObj.record
        [("resources", PyObj.record
            [("requests", PyObj.record [("cpu", PyObj.v (PyVal.str "500m"))]),
             ("limits", PyObj.noneObj)]),
         ("enable_ingress", PyObj.v (PyVal.bool true))])
      "resources.requests.cpu" (PyObj.v (PyVal.str "1000m"))).2
      (PyObj.record
        [("resources", PyObj.record
            [("requests", PyObj.record [("cpu", PyObj.v (PyVal.str "1000m"))]),
             ("limits", PyObj.noneObj)]),
         ("enable_ingress", PyObj.v (PyVal.bool true))]) rfl
  exact ⟨⟨rfl, (set_config_overlay _ "autoscaling.min_replicas" _).1 rfl⟩,
    rfl, h.1, h.2 ["enable_ingress"] (by decide) (by decide)⟩

theorem dictLookup_dictInsert {α : Type} (m : List (String × α)) (k k' : String)
    (v : α) :
    dictLookup (dictInsert m k v) k' =
      if k' = k then Option.some v else dictLookup m k' := by
  unfold dictInsert
  by_cases hc : (m.map Prod.fst).contains k
  · rw [if_pos hc]
    by_cases hk : k' = k
    · subst hk
      rw [if_pos rfl, dictLookup_update_self _ _ _ (by simpa using hc)]
    · rw [if_neg hk, dictLookup_update_other _ _ _ _ hk]
  · rw [if_neg hc]
    have hkm : k ∉ m.map Prod.fst := by simpa using hc
    by_cases hk : k' = k
    · subst hk
      have hnone : dictLookup m k' = Option.none :=
        (dictLookup_eq_none_iff m k').mpr hkm
      rw [if_pos rfl]
      unfold dictLookup at *
      rw [List.find?_append, Option.map_eq_none'.mp hnone]
      simp [List.find?]
    · rw [if_neg hk]
      unfold dictLookup
      rw [List.find?_append]
      cases hf : m.find? (fun kv => kv.1 == k') with
      | some kv => rfl
      | none =>
          rw [Option.none_or]
          simp [List.find?, show (k == k') = false by simpa using fun h => hk (by simp_all)]

theorem mergeDocuments_not_mem (new : List (String × Json)) :
    ∀ (old : List (String × Json)) (k : String), k ∉ new.map Prod.fst →
      dictLookup (mergeDocuments old new) k = dictLookup old k := by
  induction new with
  | nil => intro old k _; rfl
  | cons kv new ih =>
      intro old k hk
      simp only [List.map_cons, List.mem_cons, not_or] at hk
      have : mergeDocuments old (kv :: new) =
          mergeDocuments (dictInsert old kv.1 kv.2) new := rfl
      rw [this, ih _ k hk.2, dictLookup_dictInsert, if_neg hk.1]

theorem mergeDocuments_mem (new : List (String × Json)) :
    ∀ (old : List (String × Json)) (k : String), (new.map Prod.fst).Nodup →
      k ∈ new.map Prod.fst →
      dictLookup (mergeDocuments old new) k = dictLookup new k := by
  induction new with
  | nil => intro old k _ hk; simp at hk
  | cons kv new ih =>
      intro old k hnd hk
      simp only [List.map_cons, List.nodup_cons] at hnd
      have hstep : mergeDocuments old (kv :: new) =
          mergeDocuments (dictInsert old kv.1 kv.2) new := rfl
      by_cases hkk : k = kv.1
      · subst hkk
        rw [hstep, mergeDocuments_not_mem new _ kv.1 hnd.1,
          dictLookup_dictInsert, if_pos rfl, dictLookup_cons_pos rfl]
      · simp only [List.map_cons, List.mem_cons] at hk
        rcases hk with hk | hk
        · exact absurd hk hkk
        · rw [hstep, ih _ k hnd.2 hk, dictLookup_cons_neg (fun h => hkk h.symm)]

/-- Claim C7 (spec-modelled): the document-level overlay is a shallow
top-level merge — for every old and new document (the new one a Python
dict, so with distinct keys), each key present in the new document takes
the new document's value in its entirety, and each key absent from the
new document keeps the old document's value unchanged. -/
theorem document_merge_shallow (old new : List (String × Json))
    (hnew : (new.map Prod.fst).Nodup) (k : String) :
    dictLookup (mergeDocuments old new) k =
      if k ∈ new.map Prod.fst then dictLookup new k else dictLookup old k := by
  by_cases hk : k ∈ new.map Prod.fst
  · rw [if_pos hk]
    exact mergeDocuments_mem new old k hnew hk
  · rw [if_neg hk]
    exact mergeDocuments_not_mem new old k hk

theorem document_merge_shallow_witness :
    mergeDocuments [("description", Json.str "A"), ("bento", Json.str "v1")]
        [("bento", Json.str "v2")] =
      [("description", Json.str "A"), ("bento", Json.str "v2")] ∧
      ((([("bento", Json.str "v2")] : List (String × Json)).map Prod.fst).Nodup ∧
        dictLookup
            (mergeDocuments [("description", Json.str "A"), ("bento", Json.str "v1")]
              [("bento", Json.str "v2")]) "bento" =
          (if "bento" ∈ ([("bento", Json.str "v2")] : List (String × Json)).map Prod.fst
            then dictLookup [("bento", Json.str "v2")] "bento"
            else dictLookup [("description", Json.str "A"), ("bento", Json.str "v1")]
              "bento") ∧
        dictLookup
            (mergeDocuments [("description", Json.str "A"), ("bento", Json.str "v1")]
              [("bento", Json.str "v2")]) "description" =
          (if "description" ∈
              ([("bento", Json.str "v2")] : List (String × Json)).map Prod.fst
            then dictLookup [("bento", Json.str "v2")] "description"
            else dictLookup [("description", Json.str "A"), ("bento", Json.str "v1")]
              "description")) :=
  ⟨rfl, by decide,
    document_merge_shallow _ _ (by decide) "bento",
    document_merge_shallow _ _ (by decide) "description"⟩

theorem terminateLoop_found_aux (status : Nat → DeploymentStatus) (k : Nat) :
    ∀ n r, k - r ≤ n → r ≤ k → k ≤ 30 →
      status k = DeploymentStatus.nondeployed →
      (∀ j, r ≤ j → j < k → status j ≠ DeploymentStatus.nondeployed) →
      terminateLoop status r = (true, k) := by
  intro n
  induction n with
  | zero =>
      intro r hn hrk _ hk _
      have : r = k := by omega
      subst this
      rw [terminateLoop, if_pos hk]
  | succ n ih =>
      intro r hn hrk h30 hk hj
      by_cases hreq : r = k
      · subst hreq
        rw [terminateLoop, if_pos hk]
      · have hrlt : r < k := lt_of_le_of_ne hrk hreq
        rw [terminateLoop, if_neg (hj r le_rfl hrlt), if_neg (by omega)]
        exact ih (r + 1) (by omega) (by omega) h30 hk
          (fun j h1 h2 => hj j (by omega) h2)

theorem terminateLoop_timeout_aux (status : Nat → DeploymentStatus) :
    ∀ n r, 30 - r ≤ n → r ≤ 30 →
      (∀ j, r ≤ j → j ≤ 30 → status j ≠ DeploymentStatus.nondeployed) →
      terminateLoop status r = (false, 30) := by
  intro n
  induction n with
  | zero =>
      intro r hn hr hj
      have : r = 30 := by omega
      subst this
      rw [terminateLoop, if_neg (hj 30 le_rfl le_rfl), if_pos le_rfl]
  | succ n ih =>
      intro r hn hr hj
      by_cases hreq : r = 30
      · subst hreq
        rw [terminateLoop, if_neg (hj 30 le_rfl le_rfl), if_pos le_rfl]
      · rw [terminateLoop, if_neg (hj r le_rfl hr), if_neg (by omega)]
        exact ih (r + 1) (by omega) (by omega) (fun j h1 h2 => hj j (by omega) h2)

theorem terminateLoop_retries_le (status : Nat → DeploymentStatus) :
    ∀ n r, 31 - r ≤ n → r ≤ 30 → (terminateLoop status r).2 ≤ 30 := by
  intro n
  induction n with
  | zero => intro r hn hr; omega
  | succ n ih =>
      intro r hn hr
      rw [terminateLoop]
      by_cases h1 : status r = DeploymentStatus.nondeployed
      · rw [if_pos h1]
        exact hr
      · rw [if_neg h1]
        by_cases h2 : 30 ≤ r
        · rw [if_pos h2]
          exact hr
        · rw [if_neg h2]
          exact ih (r + 1) (by omega) (by omega)

/-- Claim C9: the blocking terminate wait loop sleeps a fixed 0.33-unit
interval per retry and performs at most 30 retries; it stops reporting
success at the first poll whose status is `non-deployed` (having slept
exactly that poll's index many intervals), and if no poll among the
31 polls (retries 0 through 30) sees that status it stops reporting a
timeout with the retry counter at 30 — the loop always terminates and
its exit retry count never exceeds 30. -/
theorem terminate_polling_spec (status : Nat → DeploymentStatus) :
    sleepInterval = 33 / 100 ∧
      (∀ k, k ≤ 30 → status k = DeploymentStatus.nondeployed →
        (∀ j, j < k → status j ≠ DeploymentStatus.nondeployed) →
        terminateBlock status = (true, k)) ∧
      ((∀ j, j ≤ 30 → status j ≠ DeploymentStatus.nondeployed) →
        terminateBlock status = (false, 30)) ∧
      (terminateBlock status).2 ≤ 30 := by
  refine ⟨rfl, ?_, ?_, ?_⟩
  · intro k hk30 hk hj
    exact terminateLoop_found_aux status k k 0 (by omega) (by omega) hk30 hk
      (fun j _ h2 => hj j h2)
  · intro hj
    exact terminateLoop_timeout_aux status 30 0 (by omega) (by omega)
      (fun j _ h2 => hj j h2)
  · exact terminateLoop_retries_le status 31 0 (by omega) (by omega)

theorem terminate_polling_spec_witness :
    ((2 : Nat) ≤ 30 ∧
        (fun i => if i = 2 then DeploymentStatus.nondeployed
          else DeploymentStatus.running) 2 = DeploymentStatus.nondeployed ∧
        (∀ j, j < 2 →
          (fun i => if i = 2 then DeploymentStatus.nondeployed
            else DeploymentStatus.running) j ≠ DeploymentStatus.nondeployed)) ∧
      terminateBlock
          (fun i => if i = 2 then DeploymentStatus.nondeployed
            else DeploymentStatus.running) = (true, 2) :=
  ⟨⟨by decide, by decide, by decide⟩,
    (terminate_polling_spec _).2.1 2 (by decide) (by decide) (by decide)⟩

theorem charDigit_digitChar (d : Nat) (h : d < 10) : charDigit (digitChar d) = d := by
  interval_cases d <;> decide

theorem digitChar_isDigit (d : Nat) (h : d < 10) : (digitChar d).isDigit = true := by
  interval_cases d <;> decide

theorem parseNatChars_zeros (n : Nat) (cs : List Char) :
    parseNatChars (List.replicate n '0' ++ cs) = parseNatChars cs := by
  unfold parseNatChars
  rw [List.foldl_append]
  congr 1
  induction n with
  | zero => rfl
  | succ n ih => rw [List.replicate_succ, List.foldl_cons]; simpa using ih

theorem foldl_digits_rev (ds : List Nat) (hd : ∀ d ∈ ds, d < 10) :
    ∀ a : Nat, List.foldl (fun x c => 10 * x + charDigit c) a
        ((ds.map digitChar).reverse) = a * 10 ^ ds.length + Nat.ofDigits 10 ds := by
  induction ds with
  | nil => intro a; simp
  | cons d ds ih =>
      intro a
      rw [List.map_cons, List.reverse_cons, List.foldl_append]
      rw [ih (fun x hx => hd x (List.mem_cons_of_mem d hx)) a]
      simp only [List.foldl_cons, List.foldl_nil]
      rw [charDigit_digitChar d (hd d (List.mem_cons_self d ds)), Nat.ofDigits_cons]
      simp only [List.length_cons, pow_succ]
      ring

theorem parseNatChars_natChars (n : Nat) : parseNatChars (natChars n) = n := by
  unfold parseNatChars natChars
  rw [foldl_digits_rev (Nat.digits 10 n)
    (fun d hd => Nat.digits_lt_base (by norm_num) hd) 0]
  simp [Nat.ofDigits_digits]

theorem natChars_length_le (w n : Nat) (h : n < 10 ^ w) :
    (natChars n).length ≤ w := by
  unfold natChars
  simp only [List.length_reverse, List.length_map]
  by_cases hn : n = 0
  · subst hn; simp
  · by_contra hlt
    push_neg at hlt
    have h1 : 10 ^ (Nat.digits 10 n).length ≤ 10 * n :=
      Nat.base_pow_length_digits_le 10 n (by norm_num) hn
    have h2 : 10 ^ (w + 1) ≤ 10 ^ (Nat.digits 10 n).length :=
      Nat.pow_le_pow_right (by norm_num) (by omega)
    have h3 : 10 * 10 ^ w ≤ 10 * n := by
      calc 10 * 10 ^ w = 10 ^ (w + 1) := by ring
        _ ≤ 10 ^ (Nat.digits 10 n).length := h2
        _ ≤ 10 * n := h1
    omega

theorem padChars_length (w n : Nat) (h : n < 10 ^ w) :
    (padChars w n).length = w := by
  have := natChars_length_le w n h
  unfold padChars
  simp only [List.length_append, List.length_replicate]
  omega

theorem parseNatChars_padChars (w n : Nat) :
    parseNatChars (padChars w n) = n := by
  unfold padChars
  rw [show List.replicate (w - (natChars n).length) '0' ++ natChars n =
    List.replicate (w - (natChars n).length) '0' ++ (natChars n ++ []) by simp]
  rw [parseNatChars_zeros]
  simpa using parseNatChars_natChars n

theorem padChars_all_isDigit (w n : Nat) :
    (padChars w n).all Char.isDigit = true := by
  rw [List.all_eq_true]
  intro c hc
  unfold padChars at hc
  rcases List.mem_append.mp hc with h | h
  · rw [List.eq_of_mem_replicate h]
    decide
  · unfold natChars at h
    rw [List.mem_reverse, List.mem_map] at h
    obtain ⟨d, hd, rfl⟩ := h
    exact digitChar_isDigit d (Nat.digits_lt_base (by norm_num) hd)

theorem readFixedNat_pad (k n : Nat) (rest : List Char) (h : n < 10 ^ k) :
    readFixedNat k (padChars k n ++ rest) = Option.some (n, rest) := by
  unfold readFixedNat
  rw [List.take_left' (padChars_length k n h), List.drop_left' (padChars_length k n h)]
  rw [if_pos (by simp [padChars_length k n h, padChars_all_isDigit])]
  rw [parseNatChars_padChars]

theorem expectChar_cons (c : Char) (rest : List Char) :
    expectChar c (c :: rest) = Option.some rest := by
  simp [expectChar]

theorem readFixedNat_pad_exact (k n : Nat) (h : n < 10 ^ k) :
    readFixedNat k (padChars k n) = Option.some (n, []) := by
  have := readFixedNat_pad k n [] h
  simpa using this

theorem strptime_strftime (d : PyDatetime) (h : d.WF) :
    strptimeChars (strftimeChars d) = Option.some d := by
  obtain ⟨h1, h2, h3, h4, h5, h6, h7, h8, h9, h10⟩ := h
  have hy : d.year < 10 ^ 4 := by omega
  have hmo : d.month < 10 ^ 2 := by omega
  have hdy : d.day < 10 ^ 2 := by omega
  have hh : d.hour < 10 ^ 2 := by omega
  have hmi : d.minute < 10 ^ 2 := by omega
  have hs : d.second < 10 ^ 2 := by omega
  have hus : d.microsecond < 10 ^ 6 := by omega
  simp only [strptimeChars, strftimeChars, Option.bind_eq_bind, Option.some_bind,
    readFixedNat_pad _ _ _ hy, readFixedNat_pad _ _ _ hmo, readFixedNat_pad _ _ _ hdy,
    readFixedNat_pad _ _ _ hh, readFixedNat_pad _ _ _ hmi, readFixedNat_pad _ _ _ hs,
    readFixedNat_pad_exact _ _ hus, expectChar_cons, List.isEmpty_nil, if_true]

theorem strftimeChars_ne_nil (d : PyDatetime) : strftimeChars d ≠ [] := by
  unfold strftimeChars
  intro hcontra
  have hlen := congrArg List.length hcontra
  simp only [padChars, List.length_append, List.length_cons, List.length_nil,
    List.length_replicate] at hlen
  omega

theorem encodeVal_ne_null (v : TypedVal) (t : SchemaTy) (hv : HasTy v t)
    (hn : ∀ t', t ≠ SchemaTy.opt t') : encodeVal v ≠ Json.null := by
  cases hv with
  | str s => simp [encodeVal]
  | int n => simp [encodeVal]
  | bool b => simp [encodeVal]
  | datetime d hWF => simp [encodeVal, datetime_encoder]
  | enum s vs h => simp [encodeVal]
  | noneV t => exact absurd rfl (hn t)
  | someV v t h => exact absurd rfl (hn t)
  | list xs t h => simp [encodeVal]
  | record vfs tfs hlen hnames hvals hnodup => simp [encodeVal]
  | smap es t h hnd => simp [encodeVal]

theorem decodeVal_opt_ne_null (t : SchemaTy) (j : Json) (h : j ≠ Json.null) :
    decodeVal (SchemaTy.opt t) j = (decodeVal t j).map TypedVal.some := by
  cases j with
  | null => exact absurd rfl h
  | str s => simp [decodeVal]
  | num n => simp [decodeVal]
  | bool b => simp [decodeVal]
  | arr xs => simp [decodeVal]
  | obj fields => simp [decodeVal]

theorem jsonLookup_encodeFields (vfs : List (String × TypedVal))
    (hnodup : (vfs.map Prod.fst).Nodup) :
    ∀ p ∈ vfs, jsonLookup p.1 (encodeFields vfs) = Option.some (encodeVal p.2) := by
  induction vfs with
  | nil => intro p hp; simp at hp
  | cons kv vfs ih =>
      intro p hp
      simp only [List.map_cons, List.nodup_cons] at hnodup
      rcases List.mem_cons.mp hp with rfl | hp'
      · simp only [encodeFields, jsonLookup, List.find?]
        rw [show (p.1 == p.1) = true by simp]
        rfl
      · have hne : kv.1 ≠ p.1 := by
          intro hcontra
          exact hnodup.1 (hcontra ▸ List.mem_map_of_mem Prod.fst hp')
        simp only [encodeFields, jsonLookup, List.find?]
        rw [show (kv.1 == p.1) = false by simpa using hne]
        exact ih hnodup.2 p hp'

theorem zip_names_eq : ∀ (vfs : List (String × TypedVal))
    (tfs : List (String × SchemaTy)), vfs.length = tfs.length →
    (∀ p ∈ vfs.zip tfs, p.1.1 = p.2.1) →
    vfs.map Prod.fst = tfs.map Prod.fst := by
  intro vfs
  induction vfs with
  | nil =>
      intro tfs hlen _
      cases tfs with
      | nil => rfl
      | cons tf tfs => simp at hlen
  | cons kv vfs ih =>
      intro tfs hlen hn
      cases tfs with
      | nil => simp at hlen
      | cons tf tfs =>
          have h1 : kv.1 = tf.1 :=
            hn (kv, tf) (by rw [List.zip_cons_cons]; exact List.mem_cons_self _ _)
          simp only [List.map_cons, h1]
          rw [ih tfs (by simpa using hlen)
            (fun p hp => hn p (by rw [List.zip_cons_cons]; exact List.mem_cons_of_mem _ hp))]

theorem decodeFieldVals_pointwise :
    ∀ (tfs : List (String × SchemaTy)) (vfs : List (String × TypedVal))
      (entries : List (String × Json)), vfs.length = tfs.length →
      (∀ p ∈ vfs.zip tfs, p.1.1 = p.2.1 ∧
        jsonLookup p.2.1 entries = Option.some (encodeVal p.1.2) ∧
        decodeVal p.2.2 (encodeVal p.1.2) = Option.some p.1.2) →
      decodeFieldVals tfs entries = Option.some vfs := by
  intro tfs
  induction tfs with
  | nil =>
      intro vfs entries hlen _
      cases vfs with
      | nil => simp [decodeFieldVals]
      | cons kv vfs => simp at hlen
  | cons tf tfs ih =>
      intro vfs entries hlen hp
      cases vfs with
      | nil => simp at hlen
      | cons kv vfs =>
          obtain ⟨name, ty⟩ := tf
          obtain ⟨hname, hlook, hdec⟩ :=
            hp (kv, (name, ty))
              (by rw [List.zip_cons_cons]; exact List.mem_cons_self _ _)
          simp only at hname hlook hdec
          simp only [decodeFieldVals, Option.bind_eq_bind]
          rw [hlook, Option.some_bind, hdec, Option.some_bind,
            ih vfs entries (by simpa using hlen)
              (fun p hq => hp p (by rw [List.zip_cons_cons]; exact List.mem_cons_of_mem _ hq)),
            Option.some_bind]
          have : (name, kv.2) = kv := by
            rw [← hname]
          rw [this]

theorem decodeListVals_pointwise (t : SchemaTy) (xs : List TypedVal) :
    (∀ x ∈ xs, decodeVal t (encodeVal x) = Option.some x) →
    decodeListVals t (encodeList xs) = Option.some xs := by
  induction xs with
  | nil => intro _; simp [encodeList, decodeListVals]
  | cons x xs ihx =>
      intro hp
      simp only [encodeList, decodeListVals, Option.bind_eq_bind]
      rw [hp x (List.mem_cons_self x xs), Option.some_bind,
        ihx (fun y hy => hp y (List.mem_cons_of_mem x hy)), Option.some_bind]

theorem decodeMapVals_pointwise (t : SchemaTy) (es : List (String × TypedVal)) :
    (∀ p ∈ es, decodeVal t (encodeVal p.2) = Option.some p.2) →
    decodeMapVals t (encodeFields es) = Option.some es := by
  induction es with
  | nil => intro _; simp [encodeFields, decodeMapVals]
  | cons kv es ihe =>
      intro hp
      simp only [encodeFields, decodeMapVals, Option.bind_eq_bind]
      rw [hp kv (List.mem_cons_self kv es), Option.some_bind,
        ihe (fun q hq => hp q (List.mem_cons_of_mem kv hq)), Option.some_bind]

/-- Claim C1: round trip of the typed converter.  For every well-formed
typed schema value `v` of a well-formed schema type, structuring the
unstructured wire document of `v` (`schema_from_json` of
`schema_to_json`) yields a value structurally equal to `v`; timestamp
fields compare at the precision of the fixed encoding pattern
`YYYY-MM-DD HH:MM:SS.ffffff`, which is exactly the content of a
`PyDatetime`. -/
theorem decode_encode_roundtrip (v : TypedVal) (ty : SchemaTy) (hv : HasTy v ty)
    (hty : SchemaWF ty) : decodeVal ty (encodeVal v) = Option.some v := by
  revert hty
  induction hv with
  | str s => intro _; simp [encodeVal, decodeVal]
  | int n => intro _; simp [encodeVal, decodeVal]
  | bool b => intro _; simp [encodeVal, decodeVal]
  | datetime d hWF =>
      intro _
      simp only [encodeVal, datetime_encoder, decodeVal]
      rw [if_neg (fun hcontra =>
        strftimeChars_ne_nil d (by simpa using congrArg String.data hcontra))]
      rw [strptime_strftime d hWF]
      rfl
  | enum s vs hmem => intro _; simp [encodeVal, decodeVal, hmem]
  | noneV t => intro _; simp [encodeVal, decodeVal]
  | someV v t hsub ih =>
      intro hty
      cases hty with
      | opt t hWFt hnopt =>
          simp only [encodeVal]
          rw [decodeVal_opt_ne_null t _ (encodeVal_ne_null v t hsub hnopt), ih hWFt]
          rfl
  | list xs t hall ih =>
      intro hty
      cases hty with
      | list t hWFt =>
          simp only [encodeVal, decodeVal]
          rw [decodeListVals_pointwise t xs (fun x hx => ih x hx hWFt)]
          rfl
  | record vfs tfs hlen hnames hvals hnodup ihvals =>
      intro hty
      cases hty with
      | record tfs hfields =>
          have hnodupv : (vfs.map Prod.fst).Nodup := by
            rw [zip_names_eq vfs tfs hlen hnames]
            exact hnodup
          simp only [encodeVal, decodeVal]
          rw [decodeFieldVals_pointwise tfs vfs (encodeFields vfs) hlen ?_]
          · rfl
          · intro p hp
            have hmemv : p.1 ∈ vfs ∧ p.2 ∈ tfs := by
              obtain ⟨a, b⟩ := p
              exact List.of_mem_zip hp
            refine ⟨hnames p hp, ?_, ihvals p hp (hfields p.2 hmemv.2)⟩
            rw [← hnames p hp]
            exact jsonLookup_encodeFields vfs hnodupv p.1 hmemv.1
  | smap es t hall hnd ih =>
      intro hty
      cases hty with
      | smap t hWFt =>
          simp only [encodeVal, decodeVal]
          rw [decodeMapVals_pointwise t es (fun p hp => ih p hp hWFt)]
          rfl

theorem decode_encode_roundtrip_witness :
    HasTy (TypedVal.record
        [("uid", TypedVal.str "deadbeef"),
         ("created_at", TypedVal.datetime ⟨2023, 5, 17, 10, 30, 0, 123456⟩),
         ("updated_at", TypedVal.some (TypedVal.datetime ⟨2023, 5, 18, 11, 0, 59, 7⟩)),
         ("deleted_at", TypedVal.none)]) BaseSchemaTy ∧
      SchemaWF BaseSchemaTy ∧
      decodeVal BaseSchemaTy (encodeVal (TypedVal.record
        [("uid", TypedVal.str "deadbeef"),
         ("created_at", TypedVal.datetime ⟨2023, 5, 17, 10, 30, 0, 123456⟩),
         ("updated_at", TypedVal.some (TypedVal.datetime ⟨2023, 5, 18, 11, 0, 59, 7⟩)),
         ("deleted_at", TypedVal.none)])) =
      Option.some (TypedVal.record
        [("uid", TypedVal.str "deadbeef"),
         ("created_at", TypedVal.datetime ⟨2023, 5, 17, 10, 30, 0, 123456⟩),
         ("updated_at", TypedVal.some (TypedVal.datetime ⟨2023, 5, 18, 11, 0, 59, 7⟩)),
         ("deleted_at", TypedVal.none)]) := by
  have h1 : HasTy (TypedVal.record
      [("uid", TypedVal.str "deadbeef"),
       ("created_at", TypedVal.datetime ⟨2023, 5, 17, 10, 30, 0, 123456⟩),
       ("updated_at", TypedVal.some (TypedVal.datetime ⟨2023, 5, 18, 11, 0, 59, 7⟩)),
       ("deleted_at", TypedVal.none)]) BaseSchemaTy := by
    refine HasTy.record _ _ rfl ?_ ?_ (by decide)
    · intro p hp
      fin_cases hp <;> rfl
    · intro p hp
      fin_cases hp
      · exact HasTy.str _
      · exact HasTy.datetime _ (by decide)
      · exact HasTy.someV _ _ (HasTy.datetime _ (by decide))
      · exact HasTy.noneV _
  have h2 : SchemaWF BaseSchemaTy := by
    refine SchemaWF.record _ ?_
    intro p hp
    fin_cases hp
    · exact SchemaWF.str
    · exact SchemaWF.datetime
    · exact SchemaWF.opt _ SchemaWF.datetime (fun t' h => SchemaTy.noConfusion h)
    · exact SchemaWF.opt _ SchemaWF.datetime (fun t' h => SchemaTy.noConfusion h)
  exact ⟨h1, h2, decode_encode_roundtrip _ _ h1 h2⟩

theorem splitChars_no_sep (sep : Char) :
    ∀ cs : List Char, sep ∉ cs → splitChars sep cs = [cs] := by
  intro cs
  induction cs with
  | nil => intro _; rfl
  | cons c rest ih =>
      intro h
      simp only [List.mem_cons, not_or] at h
      simp only [splitChars, ih h.2]
      rw [if_neg (fun hc => h.1 hc.symm)]

/-- Claim C8: the deployment-level label token `"foo:bar"` yields a
`LabelItemSchema` with key `"foo"` and value `"bar"`, and every token
with no `:` delimiter at all splits into a single part, so
`LabelItemSchema(*parts)` raises (the spec's `UserInputError`; concretely
the attrs constructor's `TypeError` for the wrong arity) instead of the
token being silently ignored.  (A token with more than one colon is
split at every colon — the first-colon-only mechanism fails there the
same way claim C4 records for `=`.) -/
theorem label_token_parsing (s : String) (h : ':' ∉ s.data) :
    mkLabelItemSchema (pySplit "foo:bar" ":") =
      Except.ok ⟨"foo", "bar"⟩ ∧
      mkLabelItemSchema (pySplit s ":") =
        Except.error (PyErr.typeErr "LabelItemSchema() takes 2 positional arguments") := by
  refine ⟨by decide, ?_⟩
  have hsplit : pySplit s ":" = [s] := by
    unfold pySplit
    rw [show (":" : String).data.headD ' ' = ':' from rfl, splitChars_no_sep ':' s.data h]
    rfl
  rw [hsplit]
  rfl

theorem label_token_parsing_witness :
    (':' ∉ ("foo" : String).data) ∧
      (mkLabelItemSchema (pySplit "foo:bar" ":") = Except.ok ⟨"foo", "bar"⟩ ∧
        mkLabelItemSchema (pySplit "foo" ":") =
          Except.error
            (PyErr.typeErr "LabelItemSchema() takes 2 positional arguments")) :=
  ⟨by decide, label_token_parsing "foo" (by decide)⟩
